import Mathlib

/-!
Verification of the crawl engine of `check-with-puppeteer.js` (GAMS console
error checker).  JavaScript strings are modelled as `List Char`; the crawl
loop is modelled as a step function on an explicit state, iterated with fuel;
the headless-browser substrate is modelled as a function from URL to
navigation outcome (HTTP response with extracted links, or a thrown
transport/timeout failure).
-/

/-- JavaScript strings are modelled as lists of characters. -/
abbrev Str := List Char

/-- Shorthand turning a Lean string literal into the `List Char` model. -/
def S (s : String) : Str := s.data

/-- Models `s.startsWith(pre)` on JavaScript strings. -/
def strStartsWith : Str → Str → Bool
  | _, [] => true
  | [], _ :: _ => false
  | c :: s, d :: pre => decide (c = d) && strStartsWith s pre

/-- Models `s.includes(sub)` on JavaScript strings (substring occurrence). -/
def hasSubstr : Str → Str → Bool
  | [], sub => strStartsWith [] sub
  | c :: t, sub => strStartsWith (c :: t) sub || hasSubstr t sub

/-- Index of the first occurrence of `sub` in `s`, if any. -/
def indexOfSub : Str → Str → Option Nat
  | [], sub => if strStartsWith [] sub then some 0 else none
  | c :: t, sub =>
    if strStartsWith (c :: t) sub then some 0
    else (indexOfSub t sub).map (· + 1)

/-- Characters allowed in a `context:` token — the character class
`[^\/\?#]` of the source regex (line 35). -/
def isTokenChar (c : Char) : Bool := decide (c ≠ '/' ∧ c ≠ '?' ∧ c ≠ '#')

/-- Models `new URL(u).origin` for plain absolute URLs of the shape
`scheme "://" host ...` with a lowercase scheme, no userinfo and no
default-port normalization: the origin is everything up to the first `/`,
`?` or `#` after the `"://"` separator.  `none` models the `TypeError`
thrown by `new URL` on a string without a scheme separator or host. -/
def urlOrigin (s : Str) : Option Str :=
  match indexOfSub s (S "://") with
  | none => none
  | some i =>
    let scheme := s.take i
    let host := (s.drop (i + 3)).takeWhile isTokenChar
    if scheme = [] ∨ host = [] then none
    else some (scheme ++ S "://" ++ host)

/-- The scope policy of a crawl: `domain` is the origin of the seed URL
(line 32), `allowedPatterns` the list built on lines 39-43. -/
structure ScopePolicy where
  domain : Str
  allowedPatterns : List Str
deriving DecidableEq, Repr

/-- Lines 91-102, `shouldCrawl`: the URL must start with the domain
string, and when patterns are present it must contain at least one. -/
def shouldCrawl (p : ScopePolicy) (url : Str) : Bool :=
  if ¬ strStartsWith url p.domain then false
  else if p.allowedPatterns.length > 0 then
    if ¬ p.allowedPatterns.any (fun pat => hasSubstr url pat) then false
    else true
  else true

/-- One attempt of the regex `/context:([^\/\?#]+)/` at the start of `s`:
the literal `"context:"` must be a prefix and the greedy `[^\/\?#]+` group
must capture at least one character. -/
def matchContextAt (s : Str) : Option Str :=
  if strStartsWith s (S "context:") then
    let tok := (s.drop (S "context:").length).takeWhile isTokenChar
    if tok = [] then none else some tok
  else none

/-- Models `startUrl.match(/context:([^\/\?#]+)/)` (line 35): the regex
engine tries each start position from the left and returns the first
position where the whole pattern matches. -/
def findContextToken : Str → Option Str
  | [] => none
  | c :: t =>
    match matchContextAt (c :: t) with
    | some tok => some tok
    | none => findContextToken t

/-- Lines 36-43: the allowed-pattern list derived from the seed URL. -/
def derivePatterns (startUrl : Str) : List Str :=
  match findContextToken startUrl with
  | some tok => [S "context:" ++ tok, S "o:" ++ tok]
  | none => []

/-- Lines 31-43 as a whole: the policy derived from the seed URL, `none`
when `new URL(startUrl)` would throw. -/
def derivePolicy (startUrl : Str) : Option ScopePolicy :=
  match urlOrigin startUrl with
  | none => none
  | some origin => some ⟨origin, derivePatterns startUrl⟩

/-- An entry of the `toVisit` queue (line 24, line 158). -/
structure FrontierEntry where
  url : Str
  foundOn : Str
deriving DecidableEq, Repr

/-- The `status` field of a broken-link record: an HTTP status code, or the
string sentinel ERROR used in the catch branch (line 168). -/
inductive LinkStatus where
  | http (code : Nat)
  | ERROR
deriving DecidableEq, Repr

/-- A record of the `brokenLinks` array (lines 128-133, 136-141, 165-170). -/
structure BrokenLink where
  url : Str
  foundOn : Str
  status : LinkStatus
  error : Str
deriving DecidableEq, Repr

/-- A record of the `errorsFound` array (lines 50-54, 60-64). -/
structure ConsoleErrorRecord where
  url : Str
  error : Str
  timestamp : Str
deriving DecidableEq, Repr

/-- A record of the `resourceErrors` array (lines 80-85). -/
structure ResourceError where
  resourceUrl : Str
  pageUrl : Str
  status : Nat
  timestamp : Str
deriving DecidableEq, Repr

/-- Outcome of `page.goto` with the network-idle wait and the 30-second
timeout, together with the links the page yields to `page.evaluate`
(lines 119-122, 149-153): either a response with an HTTP status, or a thrown
transport/timeout failure with its message. -/
inductive NavResult where
  | response (status : Nat) (links : List Str)
  | failure (message : Str)
deriving DecidableEq, Repr

/-- True exactly when navigation returned a response (did not throw). -/
def NavResult.isResponse : NavResult → Bool
  | .response _ _ => true
  | .failure _ => false

/-- The browser substrate, modelled as the navigation outcome per URL. -/
def World := Str → NavResult

/-- What one execution of the `try`/`catch` body (lines 118-171) does,
beyond updating the shared queue state: the broken-link records appended,
whether the fixed 1-second settle pause (line 145) ran, and the outbound
links extracted (empty unless `status < 400`). -/
structure VisitEffect where
  broken : List BrokenLink
  settled : Bool
  links : List Str
deriving DecidableEq, Repr

/-- The `try`/`catch` body of one visit (lines 118-171), with the queue
manipulation factored out into `crawlStep`. -/
def processVisit (url foundOn : Str) (nav : NavResult) : VisitEffect :=
  match nav with
  | .response status links =>
    { broken :=
        if status = 404 then
          [⟨url, foundOn, .http 404, S "Page not found"⟩]
        else if status ≥ 400 then
          [⟨url, foundOn, .http status, S "HTTP error " ++ (Nat.repr status).data⟩]
        else []
      settled := true
      links := if status < 400 then links else [] }
  | .failure msg =>
    { broken := [⟨url, foundOn, .ERROR, msg⟩]
      settled := false
      links := [] }

/-- JavaScript `a || b` on strings: the empty string is falsy. -/
def jsOrEmpty (a b : Str) : Str := if a = [] then b else a

/-- The console-message handler (lines 48-56).  `pageUrlNow` is the value
`page.url()` would return when the event fires. -/
def onConsole (currentPageUrl pageUrlNow msgType msgText now : Str) :
    Option ConsoleErrorRecord :=
  if msgType = S "error" then
    some ⟨jsOrEmpty currentPageUrl pageUrlNow, msgText, now⟩
  else none

/-- The uncaught-exception handler (lines 59-65). -/
def onPageError (currentPageUrl pageUrlNow message now : Str) : ConsoleErrorRecord :=
  ⟨jsOrEmpty currentPageUrl pageUrlNow, S "PAGE ERROR: " ++ message, now⟩

/-- The response handler (lines 68-88): the record appended to
`resourceErrors`, if any. -/
def onResponse (p : ScopePolicy) (currentPageUrl : Str) (status : Nat)
    (resourceUrl now : Str) : Option ResourceError :=
  if status = 404 ∧ strStartsWith resourceUrl p.domain = true then
    if p.allowedPatterns.length = 0 ∨
        p.allowedPatterns.any (fun pat => hasSubstr resourceUrl pat) then
      some ⟨resourceUrl, currentPageUrl, 404, now⟩
    else none
  else none

/-- Models `Map.prototype.set`: overwrite in place if the key is present,
append otherwise (insertion order preserved). -/
def mapSet (m : List (Str × Str)) (k v : Str) : List (Str × Str) :=
  if m.any (fun kv => decide (kv.1 = k)) then
    m.map (fun kv => if kv.1 = k then (k, v) else kv)
  else m ++ [(k, v)]

/-- Models `Map.prototype.get` (as an `Option`). -/
def mapLookup (m : List (Str × Str)) (k : Str) : Option Str :=
  match m with
  | [] => none
  | (k', v) :: t => if k' = k then some v else mapLookup t k

/-- First entry of a list of frontier entries carrying the given URL. -/
def findEntry (l : List FrontierEntry) (u : Str) : Option FrontierEntry :=
  match l with
  | [] => none
  | e :: t => if e.url = u then some e else findEntry t u

/-- Index of the first occurrence of `u` in `l` (length of `l` if absent). -/
def idxOf (l : List Str) (u : Str) : Nat :=
  match l with
  | [] => 0
  | x :: t => if x = u then 0 else idxOf t u + 1

/-- Strict visit-order precedence: `a` appears before `b` in the list `l`. -/
def visitedBefore (l : List Str) (a b : Str) : Prop :=
  a ∈ l ∧ b ∈ l ∧ idxOf l a < idxOf l b

instance (l : List Str) (a b : Str) : Decidable (visitedBefore l a b) := by
  unfold visitedBefore; infer_instance

/-- The mutable state of the crawl loop (lines 22-28), together with two
observation-only histories: the entries popped so far (in pop order) and
every entry ever placed on the queue (in push order, the seed first).
`visited` keeps the JavaScript `Set` in insertion order, which is also the
order in which URLs were popped-and-processed. -/
structure CrawlState where
  visited : List Str
  toVisit : List FrontierEntry
  urlSources : List (Str × Str)
  brokenLinks : List BrokenLink
  currentPageUrl : Str
  poppedTrace : List FrontierEntry
  pushedTrace : List FrontierEntry
deriving Repr

/-- The link-enqueue loop (lines 156-160): push every extracted link that
is neither visited nor out of scope, with the current page as provenance. -/
def pushLinks (p : ScopePolicy) (visited : List Str) (links : List Str)
    (foundOn : Str) : List FrontierEntry :=
  links.filterMap (fun link =>
    if link ∈ visited ∨ ¬ shouldCrawl p link then none
    else some ⟨link, foundOn⟩)

/-- One iteration of the `while (toVisit.length > 0)` loop (lines 105-172):
pop the head entry; drop it if already visited or out of scope; otherwise
mark it visited, record provenance, set the current page, run the visit, and
enqueue the unseen in-scope links it yielded. -/
def crawlStep (p : ScopePolicy) (w : World) (s : CrawlState) : CrawlState :=
  match s.toVisit with
  | [] => s
  | e :: rest =>
    if e.url ∈ s.visited ∨ ¬ shouldCrawl p e.url then
      { s with toVisit := rest, poppedTrace := s.poppedTrace ++ [e] }
    else
      let visited' := s.visited ++ [e.url]
      let eff := processVisit e.url e.foundOn (w e.url)
      let newEntries := pushLinks p visited' eff.links e.url
      { visited := visited'
        toVisit := rest ++ newEntries
        urlSources := mapSet s.urlSources e.url e.foundOn
        brokenLinks := s.brokenLinks ++ eff.broken
        currentPageUrl := e.url
        poppedTrace := s.poppedTrace ++ [e]
        pushedTrace := s.pushedTrace ++ newEntries }

/-- State at loop entry (lines 22-28): the queue holds the seed entry. -/
def initState (startUrl : Str) : CrawlState :=
  { visited := []
    toVisit := [⟨startUrl, S "START"⟩]
    urlSources := []
    brokenLinks := []
    currentPageUrl := []
    poppedTrace := []
    pushedTrace := [⟨startUrl, S "START"⟩] }

/-- The loop iterated `n` times (fuel-indexed; every claim about the loop is
proved for all fuel values, hence at every point of the crawl). -/
def crawlRun (p : ScopePolicy) (w : World) : Nat → CrawlState → CrawlState
  | 0, s => s
  | n + 1, s => crawlRun p w n (crawlStep p w s)

/-- A two-page world used to evaluate the loop theorems concretely. -/
def wEx : World := fun u =>
  if u = S "a://b/x" then .response 200 [S "a://b/y", S "a://b/y"]
  else if u = S "a://b/y" then .response 404 []
  else .response 200 []

/-- A same-origin-only policy used to evaluate the loop theorems. -/
def polEx : ScopePolicy := ⟨S "a://b", []⟩

/-- The membership test as the specification words it: the origin of the
URL must EQUAL the policy origin (and the pattern condition as in the code).
Stated from the spec for comparison with `shouldCrawl`. -/
def specInScope (p : ScopePolicy) (url : Str) : Bool :=
  decide (urlOrigin url = some p.domain) &&
  (p.allowedPatterns.isEmpty ||
    p.allowedPatterns.any (fun pat => hasSubstr url pat))

/-- The pattern derivation as the claim words it: the token is the maximal
run of non-`/?#` characters after the FIRST occurrence of the literal
`"context:"`, and an empty run means no pattern.  Stated from the claim for
comparison with `derivePatterns`. -/
def claimDerivePatterns (s : Str) : List Str :=
  match indexOfSub s (S "context:") with
  | none => []
  | some i =>
    let tok := (s.drop (i + (S "context:").length)).takeWhile isTokenChar
    if tok = [] then [] else [S "context:" ++ tok, S "o:" ++ tok]

/-- The inductive invariant of the crawl loop, tying the visible state
(visited set, provenance map, broken-link list, queue) to the observation
histories of popped and pushed entries.  `visited` doubles as the list of
popped-and-processed URLs in processing order. -/
structure CrawlInv (p : ScopePolicy) (start : Str) (s : CrawlState) : Prop where
  pushEq : s.pushedTrace = s.poppedTrace ++ s.toVisit
  keysEq : s.urlSources.map Prod.fst = s.visited
  nodup : s.visited.Nodup
  poppedDone : ∀ e ∈ s.poppedTrace, e.url ∈ s.visited ∨ shouldCrawl p e.url = false
  visitedScope : ∀ u ∈ s.visited, shouldCrawl p u = true
  firstSource : ∀ u ∈ s.visited, ∃ f, findEntry s.pushedTrace u = some ⟨u, f⟩ ∧
    mapLookup s.urlSources u = some f
  seedTrace : ∃ rest, s.pushedTrace = ⟨start, S "START"⟩ :: rest ∧
    ∀ e ∈ rest, shouldCrawl p e.url = true ∧ e.foundOn ∈ s.visited ∧
      (e.url ∈ s.visited → visitedBefore s.visited e.foundOn e.url)
  brokenVisited : ∀ b ∈ s.brokenLinks, b.url ∈ s.visited
  brokenOnce : ∀ u, s.brokenLinks.countP (fun b => decide (b.url = u)) ≤ 1

/-! ## Helper lemmas -/

theorem shouldCrawl_iff_aux (p : ScopePolicy) (u : Str) :
    shouldCrawl p u = true ↔
      strStartsWith u p.domain = true ∧
      (p.allowedPatterns = [] ∨ ∃ pat ∈ p.allowedPatterns, hasSubstr u pat = true) := by
  unfold shouldCrawl
  split_ifs with h1 h2 h3 <;>
    simp_all [List.any_eq_true, List.any_eq_false, List.length_pos]

theorem findContextToken_of_matchAt (s : Str) (t : Str) (i : Nat)
    (h : matchContextAt (s.drop i) = some t)
    (hmin : ∀ j, j < i → matchContextAt (s.drop j) = none) :
    findContextToken s = some t := by
  induction s generalizing i with
  | nil =>
    rw [List.drop_nil, (by decide : matchContextAt [] = none)] at h
    exact Option.noConfusion h
  | cons c tail ih =>
    cases i with
    | zero =>
      rw [List.drop_zero] at h
      simp [findContextToken, h]
    | succ j =>
      have h0 := hmin 0 (Nat.succ_pos j)
      rw [List.drop_zero] at h0
      simp only [findContextToken, h0]
      refine ih j ?_ ?_
      · rw [List.drop_succ_cons] at h; exact h
      · intro k hk
        have := hmin (k + 1) (Nat.succ_lt_succ hk)
        rwa [List.drop_succ_cons] at this

theorem findContextToken_none (s : Str)
    (h : ∀ i, i < s.length → matchContextAt (s.drop i) = none) :
    findContextToken s = none := by
  induction s with
  | nil => rfl
  | cons c tail ih =>
    have h0 := h 0 (by simp)
    rw [List.drop_zero] at h0
    simp only [findContextToken, h0]
    refine ih ?_
    intro i hi
    have := h (i + 1) (by simpa using Nat.succ_lt_succ hi)
    rwa [List.drop_succ_cons] at this

/-! ## Claim theorems -/

/-- C1 (counterexample): with the policy derived from the seed
`https://a.test/context:p`, the URL `https://a.test.evil.com/context:p` is
accepted by the scope test even though its origin differs from the policy
origin, so acceptance is not equivalent to origin equality. -/
theorem shouldCrawl_origin_cex :
    urlOrigin (S "https://a.test/context:p") = some (S "https://a.test") ∧
    shouldCrawl ⟨S "https://a.test", derivePatterns (S "https://a.test/context:p")⟩
        (S "https://a.test.evil.com/context:p") = true ∧
    urlOrigin (S "https://a.test.evil.com/context:p") ≠ some (S "https://a.test") ∧
    specInScope ⟨S "https://a.test", derivePatterns (S "https://a.test/context:p")⟩
        (S "https://a.test.evil.com/context:p") = false := by decide

/-- C1 (amended): the scope test accepts `u` iff `u` starts with the policy
origin as a string prefix AND (the derived pattern set is empty OR `u`
contains at least one pattern); the test is a total string computation, so
a malformed URL never raises and is simply rejected unless it extends the
origin string. -/
theorem shouldCrawl_char (p : ScopePolicy) (u : Str) :
    shouldCrawl p u = true ↔
      strStartsWith u p.domain = true ∧
      (p.allowedPatterns = [] ∨ ∃ pat ∈ p.allowedPatterns, hasSubstr u pat = true) :=
  shouldCrawl_iff_aux p u

/-- C2 (counterexample): a visit whose navigation returned HTTP status 404
(a 4xx status, navigation not successful) still executes the settle pause. -/
theorem settle_pause_404_cex :
    (processVisit (S "https://a.test/x") (S "START")
        (.response 404 [])).settled = true ∧ 400 ≤ 404 := by decide

/-- C2 (amended): the fixed 1-second settle pause executes iff the
navigation returned a response, regardless of its HTTP status; only a
thrown transport/timeout failure skips the pause. -/
theorem settled_iff_response (url foundOn : Str) (nav : NavResult) :
    (processVisit url foundOn nav).settled = true ↔ nav.isResponse = true := by
  cases nav <;> simp [processVisit, NavResult.isResponse]

/-- C3: exactly one broken-link record is appended iff the HTTP status of
the navigation itself is at least 400 or the navigation
threw; 404 is distinguished ("Page not found") from
other HTTP errors ("HTTP error n"); a thrown failure is recorded with the
`ERROR` sentinel and the failure message; in all those cases no outbound
links are extracted; and whatever the outcome, the loop consumes the entry
and continues with the rest of the frontier (nothing is rethrown). -/
theorem visit_broken_characterization (url foundOn : Str) (nav : NavResult) :
    ((processVisit url foundOn nav).broken.length =
      (match nav with
       | .response status _ => if 400 ≤ status then 1 else 0
       | .failure _ => 1)) ∧
    (∀ links, nav = .response 404 links →
      (processVisit url foundOn nav).broken =
        [⟨url, foundOn, .http 404, S "Page not found"⟩] ∧
      (processVisit url foundOn nav).links = []) ∧
    (∀ status links, nav = .response status links → 400 ≤ status → status ≠ 404 →
      (processVisit url foundOn nav).broken =
        [⟨url, foundOn, .http status, S "HTTP error " ++ (Nat.repr status).data⟩] ∧
      (processVisit url foundOn nav).links = []) ∧
    (∀ msg, nav = .failure msg →
      (processVisit url foundOn nav).broken = [⟨url, foundOn, .ERROR, msg⟩] ∧
      (processVisit url foundOn nav).links = []) ∧
    (∀ (p : ScopePolicy) (w : World) (s : CrawlState) (e : FrontierEntry)
        (rest : List FrontierEntry), s.toVisit = e :: rest →
      ∃ extra, (crawlStep p w s).toVisit = rest ++ extra) := by
  refine ⟨?_, ?_, ?_, ?_, ?_⟩
  · cases nav with
    | response status links =>
      by_cases h4 : status = 404
      · subst h4; simp [processVisit]
      · by_cases hge : 400 ≤ status <;> simp [processVisit, h4, hge]
    | failure msg => simp [processVisit]
  · rintro links rfl
    simp [processVisit]
  · rintro status links rfl hge h4
    have hlt : ¬ status < 400 := by omega
    simp [processVisit, h4, hge, hlt]
  · rintro msg rfl
    simp [processVisit]
  · intro p w s e rest h
    simp only [crawlStep, h]
    split
    · exact ⟨[], by simp⟩
    · exact ⟨_, rfl⟩

/-- C3 (witness): concrete evaluations of the characterization — a thrown
navigation failure yields exactly the `ERROR` record and no links, and a
404 navigation yields exactly the "Page not found" record. -/
theorem visit_broken_characterization_w :
    (processVisit (S "a://b/x") (S "START") (.failure (S "net::ERR_FAIL"))).broken
        = [⟨S "a://b/x", S "START", .ERROR, S "net::ERR_FAIL"⟩] ∧
    (processVisit (S "a://b/x") (S "START") (.failure (S "net::ERR_FAIL"))).links = [] ∧
    (processVisit (S "a://b/y") (S "START") (.response 404 [])).broken
        = [⟨S "a://b/y", S "START", .http 404, S "Page not found"⟩] := by
  refine ⟨?_, ?_, ?_⟩
  · exact ((visit_broken_characterization (S "a://b/x") (S "START")
      (.failure (S "net::ERR_FAIL"))).2.2.2.1 (S "net::ERR_FAIL") rfl).1
  · exact ((visit_broken_characterization (S "a://b/x") (S "START")
      (.failure (S "net::ERR_FAIL"))).2.2.2.1 (S "net::ERR_FAIL") rfl).2
  · exact ((visit_broken_characterization (S "a://b/y") (S "START")
      (.response 404 [])).2.1 [] rfl).1

/-- C4: a resource-error record is appended iff the response status is
exactly 404, the response URL starts with the crawl origin, and the URL is
in scope per the scope test; the appended record carries status 404 and the
currently active page. -/
theorem onResponse_characterization (p : ScopePolicy) (cur : Str) (status : Nat)
    (ru now : Str) :
    ((∃ r, onResponse p cur status ru now = some r) ↔
      status = 404 ∧ strStartsWith ru p.domain = true ∧ shouldCrawl p ru = true) ∧
    (∀ r, onResponse p cur status ru now = some r → r = ⟨ru, cur, 404, now⟩) := by
  constructor
  · constructor
    · rintro ⟨r, hr⟩
      unfold onResponse at hr
      split_ifs at hr with h1 h2
      obtain ⟨h404, hpre⟩ := h1
      refine ⟨h404, hpre, ?_⟩
      rw [shouldCrawl_iff_aux]
      refine ⟨hpre, ?_⟩
      rcases h2 with hlen | hany
      · exact Or.inl (List.length_eq_zero.mp hlen)
      · exact Or.inr (List.any_eq_true.mp hany)
    · rintro ⟨h404, hpre, hsc⟩
      rw [shouldCrawl_iff_aux] at hsc
      obtain ⟨-, hor⟩ := hsc
      unfold onResponse
      rw [if_pos ⟨h404, hpre⟩, if_pos ?_]
      · exact ⟨_, rfl⟩
      · rcases hor with hnil | hex
        · exact Or.inl (by rw [hnil]; rfl)
        · exact Or.inr (List.any_eq_true.mpr hex)
  · intro r hr
    unfold onResponse at hr
    split_ifs at hr
    exact (Option.some.inj hr).symm

/-- C4 (witness): a same-origin in-scope 404 response produces exactly the
expected record. -/
theorem onResponse_characterization_w :
    onResponse polEx [] 404 (S "a://b/img.png") (S "T0") =
      some ⟨S "a://b/img.png", [], 404, S "T0"⟩ := by
  obtain ⟨r, hr⟩ := (onResponse_characterization polEx [] 404
    (S "a://b/img.png") (S "T0")).1.mpr (by decide)
  rw [hr, (onResponse_characterization polEx [] 404
    (S "a://b/img.png") (S "T0")).2 r hr]

/-- C9 (counterexample): a seed whose FIRST occurrence of the literal
`"context:"` is followed by a separator (empty token run) while a later
occurrence carries a token: the code derives the patterns from the later
occurrence, but the first-occurrence reading yields no pattern. -/
theorem derivePatterns_first_occurrence_cex :
    derivePatterns (S "https://x.test/context:#context:proj") =
      [S "context:proj", S "o:proj"] ∧
    claimDerivePatterns (S "https://x.test/context:#context:proj") = [] := by decide

/-- C9 (amended): the token is taken from the leftmost position where
`"context:"` is followed by at least one non-`/?#` character (the leftmost-match
rule of the regex), the token being the maximal such run; if no
position matches, the derived pattern list is empty. -/
theorem derivePatterns_leftmost (s : Str) :
    (∀ t i, matchContextAt (s.drop i) = some t →
        (∀ j, j < i → matchContextAt (s.drop j) = none) →
        derivePatterns s = [S "context:" ++ t, S "o:" ++ t]) ∧
    ((∀ i, i < s.length → matchContextAt (s.drop i) = none) →
        derivePatterns s = []) := by
  constructor
  · intro t i h hmin
    unfold derivePatterns
    rw [findContextToken_of_matchAt s t i h hmin]
  · intro h
    unfold derivePatterns
    rw [findContextToken_none s h]

/-- C9 (witness): the leftmost match at index 15 of a plain seed yields the
two patterns, and a seed without any match yields none. -/
theorem derivePatterns_leftmost_w :
    derivePatterns (S "https://x.test/context:pr/x") =
      [S "context:pr", S "o:pr"] ∧
    derivePatterns (S "https://x.test/plain") = [] := by
  constructor
  · exact (derivePatterns_leftmost (S "https://x.test/context:pr/x")).1
      (S "pr") 15 (by decide) (by decide)
  · exact (derivePatterns_leftmost (S "https://x.test/plain")).2 (by decide)

/-- C10: when a qualifying 404 response fires while the active-page pointer
still holds its initial empty string, the `pageUrl` of the resource record is the
empty string, whereas a console-error or uncaught-exception record falls
back to the current browser URL — the two handler families treat the
no-active-page case differently. -/
theorem no_active_page_divergence (p : ScopePolicy) (ru now fb msg : Str)
    (r : ResourceError) (h : onResponse p [] 404 ru now = some r) :
    r.pageUrl = [] ∧
    onConsole [] fb (S "error") msg now = some ⟨fb, msg, now⟩ ∧
    (onPageError [] fb msg now).url = fb := by
  refine ⟨?_, ?_, ?_⟩
  · unfold onResponse at h
    split_ifs at h
    cases h
    rfl
  · simp [onConsole, jsOrEmpty]
  · simp [onPageError, jsOrEmpty]

/-- C10 (witness): concrete instance with an empty active page — the
resource record keeps the empty page URL while the console-side records use
the fallback URL. -/
theorem no_active_page_divergence_w :
    (⟨S "a://b/img.png", [], 404, S "T0"⟩ : ResourceError).pageUrl = [] ∧
    onConsole [] (S "a://b/fb") (S "error") (S "boom") (S "T0") =
      some ⟨S "a://b/fb", S "boom", S "T0"⟩ ∧
    (onPageError [] (S "a://b/fb") (S "boom") (S "T0")).url = S "a://b/fb" :=
  no_active_page_divergence polEx (S "a://b/img.png") (S "T0") (S "a://b/fb")
    (S "boom") ⟨S "a://b/img.png", [], 404, S "T0"⟩ (by decide)

theorem mapLookup_append (l₁ l₂ : List (Str × Str)) (k : Str) :
    mapLookup (l₁ ++ l₂) k =
      match mapLookup l₁ k with
      | some v => some v
      | none => mapLookup l₂ k := by
  induction l₁ with
  | nil => rfl
  | cons kv t ih =>
    obtain ⟨k', v⟩ := kv
    by_cases h : k' = k <;> simp [mapLookup, h, ih]

theorem mapLookup_none_of_not_key (m : List (Str × Str)) (k : Str)
    (h : k ∉ m.map Prod.fst) : mapLookup m k = none := by
  induction m with
  | nil => rfl
  | cons kv t ih =>
    obtain ⟨k', v⟩ := kv
    simp only [List.map_cons, List.mem_cons, not_or] at h
    obtain ⟨h1, h2⟩ := h
    simp only [mapLookup]
    rw [if_neg (fun hh => h1 hh.symm)]
    exact ih h2

theorem mapSet_fresh (m : List (Str × Str)) (k v : Str)
    (h : k ∉ m.map Prod.fst) : mapSet m k v = m ++ [(k, v)] := by
  unfold mapSet
  rw [if_neg]
  intro hany
  rw [List.any_eq_true] at hany
  obtain ⟨kv, hmem, hkv⟩ := hany
  have hkv' : kv.1 = k := of_decide_eq_true hkv
  exact h (hkv' ▸ List.mem_map_of_mem Prod.fst hmem)

theorem findEntry_append (l₁ l₂ : List FrontierEntry) (u : Str) :
    findEntry (l₁ ++ l₂) u =
      match findEntry l₁ u with
      | some e => some e
      | none => findEntry l₂ u := by
  induction l₁ with
  | nil => rfl
  | cons e t ih =>
    by_cases h : e.url = u <;> simp [findEntry, h, ih]

theorem findEntry_mem (l : List FrontierEntry) (u : Str) (e : FrontierEntry)
    (h : findEntry l u = some e) : e ∈ l ∧ e.url = u := by
  induction l with
  | nil => cases h
  | cons e' t ih =>
    simp only [findEntry] at h
    split_ifs at h with h1
    · cases h
      exact ⟨List.mem_cons_self _ _, h1⟩
    · obtain ⟨hm, hu⟩ := ih h
      exact ⟨List.mem_cons_of_mem _ hm, hu⟩

theorem findEntry_none (l : List FrontierEntry) (u : Str)
    (h : ∀ e ∈ l, e.url ≠ u) : findEntry l u = none := by
  induction l with
  | nil => rfl
  | cons e t ih =>
    simp only [findEntry]
    rw [if_neg (h e (List.mem_cons_self e t))]
    exact ih (fun e' he' => h e' (List.mem_cons_of_mem _ he'))

theorem idxOf_append_left (l l' : List Str) (u : Str) (h : u ∈ l) :
    idxOf (l ++ l') u = idxOf l u := by
  induction l with
  | nil => cases h
  | cons x t ih =>
    rcases List.mem_cons.mp h with rfl | hmem
    · simp [idxOf]
    · by_cases hx : x = u
      · simp [idxOf, hx]
      · simp [idxOf, hx, ih hmem]

theorem idxOf_lt_length (l : List Str) (u : Str) (h : u ∈ l) :
    idxOf l u < l.length := by
  induction l with
  | nil => cases h
  | cons x t ih =>
    rcases List.mem_cons.mp h with rfl | hmem
    · simp [idxOf]
    · by_cases hx : x = u
      · simp [idxOf, hx]
      · simpa [idxOf, hx, Nat.succ_lt_succ_iff] using ih hmem

theorem idxOf_append_new (l : List Str) (u : Str) (h : u ∉ l) :
    idxOf (l ++ [u]) u = l.length := by
  induction l with
  | nil => simp [idxOf]
  | cons x t ih =>
    have hx : ¬ x = u := fun hh => h (List.mem_cons.mpr (Or.inl hh.symm))
    simp [idxOf, hx, ih (fun hm => h (List.mem_cons_of_mem x hm))]

theorem visitedBefore_append (l l' : List Str) (a b : Str)
    (h : visitedBefore l a b) : visitedBefore (l ++ l') a b := by
  obtain ⟨ha, hb, hlt⟩ := h
  exact ⟨List.mem_append_left l' ha, List.mem_append_left l' hb, by
    rw [idxOf_append_left l l' a ha, idxOf_append_left l l' b hb]; exact hlt⟩

theorem visitedBefore_new (l : List Str) (a b : Str)
    (ha : a ∈ l) (hb : b ∉ l) : visitedBefore (l ++ [b]) a b :=
  ⟨List.mem_append_left _ ha, List.mem_append_right _ (by simp), by
    rw [idxOf_append_left l [b] a ha, idxOf_append_new l b hb]
    exact idxOf_lt_length l a ha⟩

theorem nodup_snoc {α : Type} (l : List α) (a : α) (h : l.Nodup) (ha : a ∉ l) :
    (l ++ [a]).Nodup := by
  rw [List.nodup_append]
  exact ⟨h, List.nodup_singleton a, by
    intro b hb hba
    rw [List.mem_singleton] at hba
    exact ha (hba ▸ hb)⟩

theorem nodup_countP_le_one {α : Type} [DecidableEq α] (l : List α) (u : α)
    (h : l.Nodup) : l.countP (fun v => decide (v = u)) ≤ 1 := by
  induction l with
  | nil => simp
  | cons x t ih =>
    rw [List.countP_cons]
    obtain ⟨hx, ht⟩ := List.nodup_cons.mp h
    by_cases hxu : x = u
    · subst hxu
      have hz : t.countP (fun v => decide (v = x)) = 0 := by
        rw [List.countP_eq_zero]
        intro a ha hax
        exact hx ((of_decide_eq_true hax) ▸ ha)
      simp [hz]
    · simp [hxu, ih ht]

theorem nodup_countP_eq_one {α : Type} [DecidableEq α] (l : List α) (u : α)
    (h : l.Nodup) (hm : u ∈ l) : l.countP (fun v => decide (v = u)) = 1 := by
  induction l with
  | nil => cases hm
  | cons x t ih =>
    rw [List.countP_cons]
    obtain ⟨hx, ht⟩ := List.nodup_cons.mp h
    rcases List.mem_cons.mp hm with rfl | hmem
    · have hz : t.countP (fun v => decide (v = u)) = 0 := by
        rw [List.countP_eq_zero]
        intro a ha hax
        exact hx ((of_decide_eq_true hax) ▸ ha)
      simp [hz]
    · have hxu : ¬ x = u := fun hh => hx (hh ▸ hmem)
      simp [hxu, ih ht hmem]

theorem pushLinks_mem (p : ScopePolicy) (visited links : List Str)
    (foundOn : Str) (e : FrontierEntry) (h : e ∈ pushLinks p visited links foundOn) :
    e.foundOn = foundOn ∧ e.url ∉ visited ∧ shouldCrawl p e.url = true := by
  unfold pushLinks at h
  rw [List.mem_filterMap] at h
  obtain ⟨link, hmem, hf⟩ := h
  split_ifs at hf with hcond
  cases hf
  push_neg at hcond
  exact ⟨rfl, hcond.1, by simpa using hcond.2⟩

theorem processVisit_broken_url (url foundOn : Str) (nav : NavResult) :
    ∀ b ∈ (processVisit url foundOn nav).broken, b.url = url := by
  cases nav with
  | response status links =>
    intro b hb
    simp only [processVisit] at hb
    split_ifs at hb <;> simp_all
  | failure msg => intro b hb; simp only [processVisit] at hb; simp_all

theorem processVisit_broken_len (url foundOn : Str) (nav : NavResult) :
    (processVisit url foundOn nav).broken.length ≤ 1 := by
  cases nav with
  | response status links =>
    simp only [processVisit]
    split_ifs <;> simp
  | failure msg => simp [processVisit]

theorem crawlInv_init (p : ScopePolicy) (start : Str) :
    CrawlInv p start (initState start) := by
  refine ⟨rfl, rfl, List.nodup_nil, ?_, ?_, ?_, ⟨[], rfl, ?_⟩, ?_, ?_⟩ <;>
    simp [initState]

theorem crawlInv_step (p : ScopePolicy) (w : World) (start : Str) (s : CrawlState)
    (h : CrawlInv p start s) : CrawlInv p start (crawlStep p w s) := by
  obtain ⟨pushEq, keysEq, nodup, poppedDone, visitedScope, firstSource,
    seedTrace, brokenVisited, brokenOnce⟩ := h
  cases hv : s.toVisit with
  | nil =>
    have hstep : crawlStep p w s = s := by simp [crawlStep, hv]
    rw [hstep]
    exact ⟨pushEq, keysEq, nodup, poppedDone, visitedScope, firstSource,
      seedTrace, brokenVisited, brokenOnce⟩
  | cons e rest =>
    by_cases hd : e.url ∈ s.visited ∨ ¬ shouldCrawl p e.url
    · have hstep : crawlStep p w s =
          { s with toVisit := rest, poppedTrace := s.poppedTrace ++ [e] } := by
        simp only [crawlStep, hv]
        rw [if_pos hd]
      rw [hstep]
      refine ⟨?_, keysEq, nodup, ?_, visitedScope, firstSource, seedTrace,
        brokenVisited, brokenOnce⟩
      · show s.pushedTrace = (s.poppedTrace ++ [e]) ++ rest
        rw [pushEq, hv]
        simp
      · intro e' he'
        rcases List.mem_append.mp he' with hm | hm
        · exact poppedDone e' hm
        · rw [List.mem_singleton] at hm
          subst hm
          rcases hd with hd | hd
          · exact Or.inl hd
          · exact Or.inr (by simpa using hd)
    · have hnv : e.url ∉ s.visited := fun hm => hd (Or.inl hm)
      have hsc : shouldCrawl p e.url = true := by
        by_contra hc
        exact hd (Or.inr hc)
      have hfresh : e.url ∉ s.urlSources.map Prod.fst := by
        rw [keysEq]; exact hnv
      have hstep : crawlStep p w s =
          { visited := s.visited ++ [e.url]
            toVisit := rest ++ pushLinks p (s.visited ++ [e.url])
              (processVisit e.url e.foundOn (w e.url)).links e.url
            urlSources := mapSet s.urlSources e.url e.foundOn
            brokenLinks := s.brokenLinks ++ (processVisit e.url e.foundOn (w e.url)).broken
            currentPageUrl := e.url
            poppedTrace := s.poppedTrace ++ [e]
            pushedTrace := s.pushedTrace ++ pushLinks p (s.visited ++ [e.url])
              (processVisit e.url e.foundOn (w e.url)).links e.url } := by
        simp only [crawlStep, hv]
        rw [if_neg hd]
      rw [hstep]
      refine ⟨?_, ?_, ?_, ?_, ?_, ?_, ?_, ?_, ?_⟩
      · show s.pushedTrace ++ _ = (s.poppedTrace ++ [e]) ++ (rest ++ _)
        rw [pushEq, hv]
        simp
      · show (mapSet s.urlSources e.url e.foundOn).map Prod.fst = s.visited ++ [e.url]
        rw [mapSet_fresh _ _ _ hfresh, List.map_append, keysEq]
        rfl
      · exact nodup_snoc _ _ nodup hnv
      · intro e' he'
        rcases List.mem_append.mp he' with hm | hm
        · rcases poppedDone e' hm with h1 | h1
          · exact Or.inl (List.mem_append_left _ h1)
          · exact Or.inr h1
        · rw [List.mem_singleton] at hm
          subst hm
          exact Or.inl (List.mem_append_right _ (by simp))
      · intro u hu
        rcases List.mem_append.mp hu with hm | hm
        · exact visitedScope u hm
        · rw [List.mem_singleton] at hm
          subst hm
          exact hsc
      · intro u hu
        rcases List.mem_append.mp hu with hm | hm
        · obtain ⟨f, hfind, hlook⟩ := firstSource u hm
          refine ⟨f, ?_, ?_⟩
          · show findEntry (s.pushedTrace ++ _) u = some ⟨u, f⟩
            rw [findEntry_append, hfind]
          · show mapLookup (mapSet s.urlSources e.url e.foundOn) u = some f
            rw [mapSet_fresh _ _ _ hfresh, mapLookup_append, hlook]
        · rw [List.mem_singleton] at hm
          subst hm
          have hne : ∀ e₀ ∈ s.poppedTrace, e₀.url ≠ e.url := by
            intro e₀ h₀ hEq
            rcases poppedDone e₀ h₀ with h1 | h1
            · exact hnv (hEq ▸ h1)
            · rw [hEq] at h1
              exact Bool.noConfusion (hsc.symm.trans h1)
          have hfind1 : findEntry s.pushedTrace e.url = some e := by
            rw [pushEq, hv, findEntry_append,
              findEntry_none s.poppedTrace e.url hne]
            simp [findEntry]
          refine ⟨e.foundOn, ?_, ?_⟩
          · show findEntry (s.pushedTrace ++ _) e.url = some ⟨e.url, e.foundOn⟩
            rw [findEntry_append, hfind1]
          · show mapLookup (mapSet s.urlSources e.url e.foundOn) e.url = some e.foundOn
            rw [mapSet_fresh _ _ _ hfresh, mapLookup_append,
              mapLookup_none_of_not_key _ _ hfresh]
            simp [mapLookup]
      · obtain ⟨restP, hPush, hAll⟩ := seedTrace
        refine ⟨restP ++ pushLinks p (s.visited ++ [e.url])
          (processVisit e.url e.foundOn (w e.url)).links e.url, ?_, ?_⟩
        · show s.pushedTrace ++ _ = _ :: (restP ++ _)
          rw [hPush]
          rfl
        · intro e' he'
          rcases List.mem_append.mp he' with hm | hm
          · obtain ⟨hsc', hfo, hord⟩ := hAll e' hm
            refine ⟨hsc', List.mem_append_left _ hfo, ?_⟩
            intro hu'
            rcases List.mem_append.mp hu' with hu1 | hu1
            · exact visitedBefore_append _ _ _ _ (hord hu1)
            · rw [List.mem_singleton] at hu1
              rw [hu1]
              exact visitedBefore_new s.visited e'.foundOn e.url hfo hnv
          · obtain ⟨hfo, hnv', hsc'⟩ := pushLinks_mem _ _ _ _ _ hm
            refine ⟨hsc', ?_, ?_⟩
            · rw [hfo]
              exact List.mem_append_right _ (by simp)
            · intro hu'
              exact absurd hu' hnv'
      · intro b hb
        rcases List.mem_append.mp hb with hm | hm
        · exact List.mem_append_left _ (brokenVisited b hm)
        · rw [processVisit_broken_url e.url e.foundOn (w e.url) b hm]
          exact List.mem_append_right _ (by simp)
      · intro u
        show (s.brokenLinks ++ (processVisit e.url e.foundOn (w e.url)).broken).countP
          (fun b => decide (b.url = u)) ≤ 1
        rw [List.countP_append]
        by_cases hu : u = e.url
        · have hz : s.brokenLinks.countP (fun b => decide (b.url = u)) = 0 := by
            rw [List.countP_eq_zero]
            intro b hb hbu
            have h1 : b.url ∈ s.visited := brokenVisited b hb
            rw [of_decide_eq_true hbu, hu] at h1
            exact hnv h1
          rw [hz]
          simpa using le_trans (List.countP_le_length _)
            (processVisit_broken_len e.url e.foundOn (w e.url))
        · have hz : ((processVisit e.url e.foundOn (w e.url)).broken).countP
              (fun b => decide (b.url = u)) = 0 := by
            rw [List.countP_eq_zero]
            intro b hb hbu
            exact hu ((of_decide_eq_true hbu).symm.trans
              (processVisit_broken_url e.url e.foundOn (w e.url) b hb))
          rw [hz]
          simpa using brokenOnce u

theorem crawlInv_run (p : ScopePolicy) (w : World) (start : Str) (n : Nat)
    (s : CrawlState) (h : CrawlInv p start s) :
    CrawlInv p start (crawlRun p w n s) := by
  induction n generalizing s with
  | zero => exact h
  | succ n ih => exact ih _ (crawlInv_step p w start s h)

/-- C5: in every crawl execution (any policy, any browser behavior, any
number of loop iterations) each URL is popped-and-processed at most once —
`visited` lists the processed pops in order, so its occurrence count is at
most one — and consequently at most one broken-link record carries any
given URL, however often the URL was pushed before being popped. -/
theorem crawl_at_most_once (p : ScopePolicy) (w : World) (start : Str)
    (n : Nat) (u : Str) :
    (crawlRun p w n (initState start)).visited.countP
        (fun v => decide (v = u)) ≤ 1 ∧
    (crawlRun p w n (initState start)).brokenLinks.countP
        (fun b => decide (b.url = u)) ≤ 1 := by
  have h := crawlInv_run p w start n (initState start) (crawlInv_init p start)
  exact ⟨nodup_countP_le_one _ _ h.nodup, h.brokenOnce u⟩

/-- C6: at every point of the crawl, each visited URL has exactly one entry
in the provenance map, that entry is the `foundOn` of the earliest enqueued
frontier entry for the URL, and the entry of the start URL is the sentinel
`"START"`. -/
theorem crawl_provenance (p : ScopePolicy) (w : World) (start : Str) (n : Nat) :
    (∀ u ∈ (crawlRun p w n (initState start)).visited,
      (crawlRun p w n (initState start)).urlSources.countP
          (fun kv => decide (kv.1 = u)) = 1 ∧
      ∃ f, findEntry (crawlRun p w n (initState start)).pushedTrace u =
          some ⟨u, f⟩ ∧
        mapLookup (crawlRun p w n (initState start)).urlSources u = some f) ∧
    (start ∈ (crawlRun p w n (initState start)).visited →
      mapLookup (crawlRun p w n (initState start)).urlSources start =
        some (S "START")) := by
  have h := crawlInv_run p w start n (initState start) (crawlInv_init p start)
  constructor
  · intro u hu
    constructor
    · rw [show (fun kv : Str × Str => decide (kv.1 = u)) =
          ((fun v => decide (v = u)) ∘ Prod.fst) from rfl,
        ← List.countP_map, h.keysEq]
      exact nodup_countP_eq_one _ _ h.nodup hu
    · exact h.firstSource u hu
  · intro hmem
    obtain ⟨f, hfind, hlook⟩ := h.firstSource start hmem
    obtain ⟨restP, hPush, -⟩ := h.seedTrace
    rw [hPush] at hfind
    simp only [findEntry, if_pos rfl] at hfind
    have hf : f = S "START" := by
      cases hfind
      rfl
    rw [hf] at hlook
    exact hlook

/-- C6 (witness): in the concrete two-page crawl, the second page has
exactly one provenance entry, and the provenance of the start URL is `START`. -/
theorem crawl_provenance_w :
    (crawlRun polEx wEx 4 (initState (S "a://b/x"))).urlSources.countP
        (fun kv => decide (kv.1 = S "a://b/y")) = 1 ∧
    mapLookup (crawlRun polEx wEx 4 (initState (S "a://b/x"))).urlSources
        (S "a://b/x") = some (S "START") :=
  ⟨((crawl_provenance polEx wEx (S "a://b/x") 4).1 (S "a://b/y") (by decide)).1,
   (crawl_provenance polEx wEx (S "a://b/x") 4).2 (by decide)⟩

/-- C7: every entry ever pushed onto the frontier is the seed entry or has
an in-scope URL, and every URL in the visited set is in scope. -/
theorem crawl_scope_closure (p : ScopePolicy) (w : World) (start : Str) (n : Nat) :
    (∃ rest, (crawlRun p w n (initState start)).pushedTrace =
        ⟨start, S "START"⟩ :: rest ∧
      ∀ e ∈ rest, shouldCrawl p e.url = true) ∧
    (∀ u ∈ (crawlRun p w n (initState start)).visited,
      shouldCrawl p u = true) := by
  have h := crawlInv_run p w start n (initState start) (crawlInv_init p start)
  constructor
  · obtain ⟨restP, hPush, hAll⟩ := h.seedTrace
    exact ⟨restP, hPush, fun e hm => (hAll e hm).1⟩
  · exact h.visitedScope

/-- C7 (witness): in the concrete two-page crawl, the visited second page
is in scope. -/
theorem crawl_scope_closure_w :
    shouldCrawl polEx (S "a://b/y") = true :=
  (crawl_scope_closure polEx wEx (S "a://b/x") 4).2 (S "a://b/y") (by decide)

/-- C8: the frontier is FIFO — at every point the sequence of popped
entries followed by the remaining queue is exactly the sequence of pushed
entries in push order — and consequently a URL `A` (other than the seed)
all of whose frontier entries were discovered on `B` is visited strictly
after `B`. -/
theorem crawl_fifo (p : ScopePolicy) (w : World) (start : Str) (n : Nat) :
    ((crawlRun p w n (initState start)).poppedTrace ++
        (crawlRun p w n (initState start)).toVisit =
      (crawlRun p w n (initState start)).pushedTrace) ∧
    (∀ A B, A ∈ (crawlRun p w n (initState start)).visited → A ≠ start →
      (∀ e ∈ (crawlRun p w n (initState start)).pushedTrace,
        e.url = A → e.foundOn = B) →
      visitedBefore (crawlRun p w n (initState start)).visited B A) := by
  have h := crawlInv_run p w start n (initState start) (crawlInv_init p start)
  constructor
  · exact h.pushEq.symm
  · intro A B hA hAs hfo
    obtain ⟨f, hfind, -⟩ := h.firstSource A hA
    obtain ⟨hm, hurl⟩ := findEntry_mem _ _ _ hfind
    have hfB : f = B := hfo ⟨A, f⟩ hm rfl
    obtain ⟨restP, hPush, hAll⟩ := h.seedTrace
    rw [hPush] at hm
    rcases List.mem_cons.mp hm with hseed | hm
    · exact absurd (congrArg FrontierEntry.url hseed) hAs
    · have := (hAll _ hm).2.2 hA
      rw [hfB] at this
      exact this

/-- C8 (witness): in the concrete two-page crawl, the page discovered only
on the start page is visited strictly after it. -/
theorem crawl_fifo_w :
    visitedBefore (crawlRun polEx wEx 4 (initState (S "a://b/x"))).visited
      (S "a://b/x") (S "a://b/y") :=
  (crawl_fifo polEx wEx (S "a://b/x") 4).2 (S "a://b/y") (S "a://b/x")
    (by decide) (by decide) (by decide)

/-- Sanity check of the derivation on the shipped seed URL (line 274). -/
theorem derivePolicy_lidal :
    derivePolicy (S "https://gams.uni-graz.at/context:lidal") =
      some ⟨S "https://gams.uni-graz.at",
        [S "context:lidal", S "o:lidal"]⟩ := by decide

/-- Sanity check of the loop model on the concrete two-page world: both
pushes of the duplicate link are recorded, the duplicate pop is discarded,
and the 404 page yields exactly one broken-link record. -/
theorem crawlRun_wEx_eval :
    (crawlRun polEx wEx 4 (initState (S "a://b/x"))).visited =
      [S "a://b/x", S "a://b/y"] ∧
    (crawlRun polEx wEx 4 (initState (S "a://b/x"))).pushedTrace =
      [⟨S "a://b/x", S "START"⟩, ⟨S "a://b/y", S "a://b/x"⟩,
       ⟨S "a://b/y", S "a://b/x"⟩] ∧
    (crawlRun polEx wEx 4 (initState (S "a://b/x"))).brokenLinks =
      [⟨S "a://b/y", S "a://b/x", .http 404, S "Page not found"⟩] := by decide
